import Mathlib

/-!
Verification of the mfuses-moleculer service wrapper (main module, the file
with the `mfuses`/`usMoleculer`/`mol-service` alias chain).

The module is a configuration-merging shim: it reads a hierarchical
configuration store, deep-merges the discovered sub-trees over hard-coded
defaults (via lodash `mergeWith` with no customizer, i.e. lodash deep
`merge`), constructs and starts a service broker, optionally attaches the
`moleculer-web` gateway, and exposes `call`/`emit`/`broadcast` helpers that
delegate to the broker.

We embed the configuration values as a JSON-like tree (`JsValue`), the
deep merge, the dotted-path `has`/`get` queries of the `config` package,
the alias-selection if/else chain, the web-API enablement block, and the
call facade.  The facade's copy semantics (`Object.assign`) are embedded
separately over an explicit heap, since they are about object identity.
-/

set_option autoImplicit false

namespace MFuses

mutual
/-- JSON-like configuration values.  `vObj` holds an ordered field list
(`JsFields` is a specialized association list, mutually inductive with
`JsValue` so that recursion over nested objects is structural). -/
inductive JsValue where
  | vStr (s : String)
  | vNum (n : Int)
  | vBool (b : Bool)
  | vObj (fields : JsFields)
  deriving Repr, DecidableEq

inductive JsFields where
  | nil
  | cons (key : String) (value : JsValue) (rest : JsFields)
  deriving Repr, DecidableEq
end

/-- Build an object from a list of fields (convenience constructor). -/
def fieldsOf : List (String × JsValue) → JsFields
  | [] => JsFields.nil
  | (k, v) :: rest => JsFields.cons k v (fieldsOf rest)

/-- Build an object value from a list of fields. -/
def obj (l : List (String × JsValue)) : JsValue := JsValue.vObj (fieldsOf l)

/-- First value bound to `key`, like JS property lookup on our field list. -/
def getF : JsFields → String → Option JsValue
  | JsFields.nil, _ => none
  | JsFields.cons k v rest, key => if k = key then some v else getF rest key

/-- Concatenation of field lists. -/
def appendF : JsFields → JsFields → JsFields
  | JsFields.nil, o => o
  | JsFields.cons k v r, o => JsFields.cons k v (appendF r o)

/-- The fields of `os` whose keys do not occur in `ds` (the new keys the
merge source contributes to the destination). -/
def extraFields (ds : JsFields) : JsFields → JsFields
  | JsFields.nil => JsFields.nil
  | JsFields.cons k v rest =>
      if (getF ds k).isSome then extraFields ds rest
      else JsFields.cons k v (extraFields ds rest)

mutual
/-- lodash `mergeWith(dst, src)` with no customizer, i.e. lodash deep
`merge`: when both sides bind a key to objects the objects are merged
recursively, otherwise the source value wins; keys only in the source are
added. -/
def mergeVal : JsValue → JsValue → JsValue
  | JsValue.vObj ds, JsValue.vObj os =>
      JsValue.vObj (appendF (mergeFields ds os) (extraFields ds os))
  | _, o => o

def mergeFields : JsFields → JsFields → JsFields
  | JsFields.nil, _ => JsFields.nil
  | JsFields.cons k v rest, os =>
      JsFields.cons k
        (match getF os k with
         | some ov => mergeVal v ov
         | none => v)
        (mergeFields rest os)
end

/-- Descend along a key path (the dotted paths of the `config` package,
e.g. `config.get("mfuses.config")` is `getPath store ["mfuses", "config"]`). -/
def getPath : JsValue → List String → Option JsValue
  | v, [] => some v
  | JsValue.vObj fs, k :: ks =>
      match getF fs k with
      | some v => getPath v ks
      | none => none
  | _, _ :: _ => none

/-- `config.has(path)`. -/
def hasPath (store : JsValue) (p : List String) : Bool := (getPath store p).isSome

/-- `config.get(path)` — in the source only ever called under a successful
`config.has(path)`, so the fallback object is never observed. -/
def getPathD (store : JsValue) (p : List String) : JsValue :=
  (getPath store p).getD (JsValue.vObj JsFields.nil)

/-- The default service configuration (the module-level `serviceConfig`
initializer). -/
def defaultServiceConfig : JsValue :=
  obj [("namespace", JsValue.vStr "MFuSes-default"),
       ("transporter", JsValue.vStr "TCP"),
       ("registry", obj [("strategy", JsValue.vStr "Random")])]

/-- The default moleculer-web settings (the module-level `webApiSettings`
initializer). -/
def defaultWebApiSettings : JsValue :=
  obj [("port", JsValue.vNum 8080), ("path", JsValue.vStr "/srvapi")]

/-- The default logger settings (the module-level `loggerSettings`
initializer, an empty object). -/
def defaultLoggerSettings : JsValue := JsValue.vObj JsFields.nil

/-- Deprecation warning logged in the `usMoleculer` branch (quote
characters of the source string omitted). -/
def usMoleculerWarning : String :=
  "The usMoleculer configuration entry is deprecated, use mfuses instead"

/-- Deprecation warning logged in the final `else` branch (quote
characters of the source string omitted). -/
def molServiceWarning : String :=
  "The mol-service configuration entry is deprecated, use mfuses instead"

/-- Outcome of the alias-selection if/else chain: the merged service
configuration, the merged logger settings, and the deprecation warnings
logged on the way.  (The chain additionally installs a logger-factory
closure as `serviceConfig.logger`; that function-valued field carries no
configuration data and is not part of the record here.) -/
structure ResolveResult where
  serviceConfig : JsValue
  loggerSettings : JsValue
  warnings : List String
  deriving Repr, DecidableEq

/-- The alias-selection if/else chain over the configuration store:
`mfuses` first, then `usMoleculer` (with its deprecation warning), then the
final `else` branch, which logs the `mol-service` deprecation warning and
reads the `mol-service` sub-trees. -/
def resolveConfig (store : JsValue) : ResolveResult :=
  if hasPath store ["mfuses"] then
    { serviceConfig :=
        if hasPath store ["mfuses", "config"] then
          mergeVal defaultServiceConfig (getPathD store ["mfuses", "config"])
        else defaultServiceConfig
      loggerSettings :=
        if hasPath store ["mfuses", "logger"] then
          mergeVal defaultLoggerSettings (getPathD store ["mfuses", "logger"])
        else defaultLoggerSettings
      warnings := [] }
  else if hasPath store ["usMoleculer"] then
    { serviceConfig :=
        if hasPath store ["usMoleculer", "config"] then
          mergeVal defaultServiceConfig (getPathD store ["usMoleculer", "config"])
        else defaultServiceConfig
      loggerSettings :=
        if hasPath store ["usMoleculer", "logger"] then
          mergeVal defaultLoggerSettings (getPathD store ["usMoleculer", "logger"])
        else defaultLoggerSettings
      warnings := [usMoleculerWarning] }
  else
    { serviceConfig :=
        if hasPath store ["mol-service", "config"] then
          mergeVal defaultServiceConfig (getPathD store ["mol-service", "config"])
        else defaultServiceConfig
      loggerSettings :=
        if hasPath store ["mol-service", "logger"] then
          mergeVal defaultLoggerSettings (getPathD store ["mol-service", "logger"])
        else defaultLoggerSettings
      warnings := [molServiceWarning] }

/-- JavaScript truthiness of a configuration value, as tested by
`config.get(...enableWebApi)` in a boolean conjunction. -/
def isTruthy : JsValue → Bool
  | JsValue.vStr s => s ≠ ""
  | JsValue.vNum n => n ≠ 0
  | JsValue.vBool b => b
  | JsValue.vObj _ => true

/-- The web-API enablement test of the source:
`(config.has(p) && config.get(p))` for `p = usMoleculer.enableWebApi`, or
the same for `mol-service.enableWebApi`.  Note it never consults
`mfuses.enableWebApi`. -/
def webApiEnabled (store : JsValue) : Bool :=
  (match getPath store ["usMoleculer", "enableWebApi"] with
   | some v => isTruthy v
   | none => false) ||
  (match getPath store ["mol-service", "enableWebApi"] with
   | some v => isTruthy v
   | none => false)

/-- The web-API settings merge inside the enablement block: `usMoleculer`
settings if present, else `mol-service` settings if present, else the
defaults untouched. -/
def resolvedWebApiSettings (store : JsValue) : JsValue :=
  if hasPath store ["usMoleculer", "webApiSettings"] then
    mergeVal defaultWebApiSettings (getPathD store ["usMoleculer", "webApiSettings"])
  else if hasPath store ["mol-service", "webApiSettings"] then
    mergeVal defaultWebApiSettings (getPathD store ["mol-service", "webApiSettings"])
  else defaultWebApiSettings

/-- Error log accompanying a failed `require("moleculer-web")`: the caught
error together with the fixed guidance message. -/
def gatewayGuidance : String :=
  "Failed to start moleculer web module, ensure it is added to your main project as a dependency"

/-- Broker state after module initialization: the resolved configuration,
whether `broker.start()` ran, whether the gateway sub-service was created,
the settings it was created with, and the error logs of the catch block. -/
structure BrokerState where
  resolved : ResolveResult
  started : Bool
  gatewayAttached : Bool
  gatewaySettings : Option JsValue
  errorLogs : List (String × String)
  deriving Repr, DecidableEq

/-- Module initialization: resolve the configuration, start the broker,
then run the web-API block.  Loading of the optional `moleculer-web`
module is an input (`gatewayLoad`): `Except.ok` models a successful
`require`, `Except.error e` a throw caught by the catch block, which logs
the error with the guidance message and leaves the broker running. -/
def startup (store : JsValue) (gatewayLoad : Except String Unit) : BrokerState :=
  let rc := resolveConfig store
  if webApiEnabled store then
    match gatewayLoad with
    | Except.ok _ =>
        { resolved := rc, started := true, gatewayAttached := true,
          gatewaySettings := some (resolvedWebApiSettings store), errorLogs := [] }
    | Except.error e =>
        { resolved := rc, started := true, gatewayAttached := false,
          gatewaySettings := none, errorLogs := [(e, gatewayGuidance)] }
  else
    { resolved := rc, started := true, gatewayAttached := false,
      gatewaySettings := none, errorLogs := [] }

/-! ## The call facade: outcomes and logging

`call` delegates to `broker.call` and registers a `.catch` handler that
only logs; the promise returned to the caller is the original
`broker.call` promise, so its settlement is unchanged.  `emit` and
`broadcast` delegate to the broker primitive with no handler at all.  We
embed the broker primitive's outcome as an input and the facade as the
function from that outcome to the caller-visible outcome plus the log
entries recorded. -/

/-- A log entry of the facade: the trace entry at function entry, or the
error entry of `call`'s catch handler. -/
inductive LogEntry where
  | trace (fn : String) (detail : String)
  | error (err : String) (msg : String)
  deriving Repr, DecidableEq

/-- The `call` facade over the broker outcome: trace-log the invocation,
delegate, log failures via `.catch` (which does not alter the returned
promise), and return the broker promise itself. -/
def callFacade (actionName : String) (brokerResult : Except String JsValue) :
    Except String JsValue × List LogEntry :=
  (brokerResult,
   LogEntry.trace "call" actionName ::
     (match brokerResult with
      | Except.error e => [LogEntry.error e ("Error calling " ++ actionName)]
      | Except.ok _ => []))

/-- The `emit` facade over the broker outcome: trace-log the invocation
(event name and groups, payload excluded) and delegate with no handler. -/
def emitFacade (eventName : String) (payload : JsValue) (groups : List String)
    (brokerEmit : Except String Unit) : Except String Unit × List LogEntry :=
  (brokerEmit, [LogEntry.trace "emit" eventName])

/-- The `broadcast` facade over the broker outcome: trace-log the
invocation and delegate with no handler. -/
def broadcastFacade (eventName : String) (payload : JsValue) (groups : List String)
    (brokerBroadcast : Except String Unit) : Except String Unit × List LogEntry :=
  (brokerBroadcast, [LogEntry.trace "broadcast" eventName])

/-! ## The call facade: argument copying over an explicit heap

`Object.assign({}, o)` copies the top-level fields of `o` into a fresh
object; nested object values are copied by reference.  To state identity
and sharing we embed objects in a heap: an object is a list of fields
whose values are scalars or references (`HVal.hRef`) to other heap
objects; the heap is the list of allocated objects, addressed by index. -/

/-- A heap value: a scalar or a reference to a heap object. -/
inductive HVal where
  | hStr (s : String)
  | hNum (n : Int)
  | hBool (b : Bool)
  | hRef (addr : Nat)
  deriving Repr, DecidableEq

/-- A heap object: its top-level fields. -/
abbrev HObj := List (String × HVal)

/-- Index lookup in the allocation list. -/
def nth : List HObj → Nat → Option HObj
  | [], _ => none
  | o :: _, 0 => some o
  | _ :: rest, n + 1 => nth rest n

/-- Replace the object at an index (no-op when out of range). -/
def setNth : List HObj → Nat → HObj → List HObj
  | [], _, _ => []
  | _ :: rest, 0, o => o :: rest
  | x :: rest, n + 1, o => x :: setNth rest n o

/-- The heap: all allocated objects, addressed by index. -/
structure Heap where
  objs : List HObj
  deriving Repr, DecidableEq

/-- Dereference an address. -/
def lookupObj (h : Heap) (a : Nat) : Option HObj := nth h.objs a

/-- Allocate a fresh object, returning the new heap and its address. -/
def alloc (h : Heap) (o : HObj) : Heap × Nat :=
  (Heap.mk (h.objs ++ [o]), h.objs.length)

/-- First value bound to `key` among an object's fields. -/
def getHField : HObj → String → Option HVal
  | [], _ => none
  | (k, v) :: rest, key => if k = key then some v else getHField rest key

/-- Set a field of an object (replace the first binding, or append). -/
def setHField : HObj → String → HVal → HObj
  | [], key, v => [(key, v)]
  | (k, v') :: rest, key, v =>
      if k = key then (key, v) :: rest else (k, v') :: setHField rest key v

/-- Mutate field `k` of the object at address `a` (no-op on a dangling
address). -/
def setField (h : Heap) (a : Nat) (k : String) (v : HVal) : Heap :=
  match lookupObj h a with
  | some o => Heap.mk (setNth h.objs a (setHField o k v))
  | none => h

/-- `callParams` as received by `call`: a stream (detected by the
`is-stream` duck test, embedded as a tag) or a plain object reference. -/
inductive CallParams where
  | stream (sid : Nat)
  | objRef (addr : Nat)
  deriving Repr, DecidableEq

/-- The `isStream(callParams)` test. -/
def isStreamParam : CallParams → Bool
  | CallParams.stream _ => true
  | CallParams.objRef _ => false

/-- The `finalCallParams` computation of `call`: a stream is passed
through unmodified; a non-stream object is `Object.assign({}, callParams)`
— a fresh object holding the original's top-level fields. -/
def normalizeCallParams (h : Heap) (p : CallParams) : Heap × CallParams :=
  match p with
  | CallParams.stream sid => (h, CallParams.stream sid)
  | CallParams.objRef a =>
      let copied := alloc h ((lookupObj h a).getD [])
      (copied.1, CallParams.objRef copied.2)

/-- The `finalCallOptions` computation of `call`:
`Object.assign({}, callOptions)` — a fresh object holding the options'
top-level fields, empty when `callOptions` is absent (`undefined`). -/
def normalizeCallOptions (h : Heap) (opts : Option Nat) : Heap × Nat :=
  match opts with
  | some a => alloc h ((lookupObj h a).getD [])
  | none => alloc h []

/-- Read a field path through the heap, dereferencing object references. -/
def readPath (h : Heap) : HVal → List String → Option HVal
  | v, [] => some v
  | HVal.hRef a, k :: ks =>
      match lookupObj h a with
      | some m =>
          match getHField m k with
          | some v => readPath h v ks
          | none => none
      | none => none
  | _, _ :: _ => none

/-! ## Well-formed values and merge helpers

JavaScript objects, and hence the configuration records the store can
produce, never bind the same key twice; in the field-list representation
that is the `nodupF`/`wfV` well-formedness condition. -/

/-- No key occurs twice among the top-level fields. -/
def nodupF : JsFields → Bool
  | JsFields.nil => true
  | JsFields.cons k _ rest => !(getF rest k).isSome && nodupF rest

mutual
/-- Well-formed value: every object in it binds each key at most once. -/
def wfV : JsValue → Bool
  | JsValue.vObj fs => nodupF fs && wfF fs
  | _ => true

/-- Well-formed field list: every value in it is well-formed. -/
def wfF : JsFields → Bool
  | JsFields.nil => true
  | JsFields.cons _ v rest => wfV v && wfF rest
end

/-- Entry membership in a field list. -/
def memEntry (key : String) (val : JsValue) : JsFields → Prop
  | JsFields.nil => False
  | JsFields.cons k v rest => (k = key ∧ v = val) ∨ memEntry key val rest

/-- Induction over the list structure of `JsFields` alone (the generated
recursor of the mutual inductive has two motives, which the `induction`
tactic does not accept). -/
theorem fieldsInduction {motive : JsFields → Prop} (nil : motive JsFields.nil)
    (cons : ∀ k v rest, motive rest → motive (JsFields.cons k v rest)) :
    ∀ fs : JsFields, motive fs
  | JsFields.nil => nil
  | JsFields.cons k v rest => cons k v rest (fieldsInduction nil cons rest)

theorem getF_isSome_of_memEntry {k : String} {v : JsValue} :
    ∀ {fs : JsFields}, memEntry k v fs → (getF fs k).isSome = true := by
  intro fs
  induction fs using fieldsInduction with
  | nil => intro hmem; exact absurd hmem id
  | cons k' v' rest ih =>
    intro hmem
    simp only [getF]
    rcases hmem with ⟨hk, _⟩ | hmem
    · simp [hk]
    · by_cases hk' : k' = k
      · simp [hk']
      · simpa [hk'] using ih hmem

theorem getF_of_nodup_memEntry {k : String} {v : JsValue} :
    ∀ {fs : JsFields}, nodupF fs = true → memEntry k v fs → getF fs k = some v := by
  intro fs
  induction fs using fieldsInduction with
  | nil => intro _ hmem; exact absurd hmem id
  | cons k' v' rest ih =>
    intro hnd hmem
    simp only [nodupF, Bool.and_eq_true, Bool.not_eq_true'] at hnd
    rcases hmem with ⟨hk, hv⟩ | hmem
    · simp [getF, hk, hv]
    · by_cases hk' : k' = k
      · subst hk'
        have := getF_isSome_of_memEntry hmem
        rw [hnd.1] at this
        cases this
      · simpa [getF, hk'] using ih hnd.2 hmem

theorem appendF_nil : ∀ fs : JsFields, appendF fs JsFields.nil = fs := by
  intro fs
  induction fs using fieldsInduction with
  | nil => rfl
  | cons k v rest ih => simp [appendF, ih]

theorem extraFields_eq_nil {ds : JsFields} :
    ∀ {os : JsFields}, (∀ k v, memEntry k v os → (getF ds k).isSome = true) →
      extraFields ds os = JsFields.nil := by
  intro os
  induction os using fieldsInduction with
  | nil => intro _; rfl
  | cons k v rest ih =>
    intro hsub
    have hk : (getF ds k).isSome = true := hsub k v (Or.inl ⟨rfl, rfl⟩)
    have hrest : ∀ k' v', memEntry k' v' rest → (getF ds k').isSome = true :=
      fun k' v' hm => hsub k' v' (Or.inr hm)
    simp [extraFields, hk, ih hrest]

mutual
theorem mergeVal_self : ∀ (v : JsValue), wfV v = true → mergeVal v v = v
  | JsValue.vStr _, _ => rfl
  | JsValue.vNum _, _ => rfl
  | JsValue.vBool _, _ => rfl
  | JsValue.vObj fs, h => by
      simp only [wfV, Bool.and_eq_true] at h
      have hsub : ∀ k v, memEntry k v fs → getF fs k = some v :=
        fun k v hm => getF_of_nodup_memEntry h.1 hm
      have hmf : mergeFields fs fs = fs := mergeFields_self fs fs h.2 hsub
      have hex : extraFields fs fs = JsFields.nil :=
        extraFields_eq_nil (fun k v hm => getF_isSome_of_memEntry hm)
      simp [mergeVal, hmf, hex, appendF_nil]

theorem mergeFields_self : ∀ (fs whole : JsFields), wfF fs = true →
    (∀ k v, memEntry k v fs → getF whole k = some v) → mergeFields fs whole = fs
  | JsFields.nil, _, _, _ => rfl
  | JsFields.cons k v rest, whole, hwf, hsub => by
      simp only [wfF, Bool.and_eq_true] at hwf
      have hk : getF whole k = some v := hsub k v (Or.inl ⟨rfl, rfl⟩)
      have hv : mergeVal v v = v := mergeVal_self v hwf.1
      have hrest : mergeFields rest whole = rest :=
        mergeFields_self rest whole hwf.2 (fun k' v' hm => hsub k' v' (Or.inr hm))
      simp [mergeFields, hk, hv, hrest]
end

/-! ## Paths the override does not touch

`untouched o p` says the override tree `o` stays clear of the path `p`:
descending `p` through `o`, before the path is exhausted we reach a key
the current object does not bind.  These are exactly the default leaves
the override "does not specify": deep merge leaves them unchanged. -/

/-- The override tree has no binding on the path (it runs off the object
graph before the path ends). -/
def untouched : JsValue → List String → Bool
  | _, [] => false
  | JsValue.vObj fs, k :: ks =>
      match getF fs k with
      | none => true
      | some v => untouched v ks
  | _, _ :: _ => false

theorem getPath_none_of_untouched :
    ∀ (p : List String) (o : JsValue), untouched o p = true → getPath o p = none := by
  intro p
  induction p with
  | nil => intro o h; cases o <;> exact absurd h (by simp [untouched])
  | cons k ks ih =>
    intro o h
    cases o with
    | vObj fs =>
      simp only [untouched] at h
      simp only [getPath]
      cases hf : getF fs k with
      | none => rfl
      | some v =>
        rw [hf] at h
        exact ih v h
    | vStr s => exact absurd h (by simp [untouched])
    | vNum n => exact absurd h (by simp [untouched])
    | vBool b => exact absurd h (by simp [untouched])

/-- `getPath` on an object and a nonempty path, as an equation. -/
theorem getPath_vObj_cons (fs : JsFields) (k : String) (ks : List String) :
    getPath (JsValue.vObj fs) (k :: ks) =
      match getF fs k with
      | some v => getPath v ks
      | none => none := rfl

theorem getF_mergeFields : ∀ (ds : JsFields) (os : JsFields) (k : String),
    getF (mergeFields ds os) k =
      match getF ds k with
      | some v => some (match getF os k with
                        | some ov => mergeVal v ov
                        | none => v)
      | none => none := by
  intro ds os k
  induction ds using fieldsInduction with
  | nil => rfl
  | cons k' v' rest ih =>
    by_cases hk : k' = k
    · subst hk
      simp [mergeFields, getF]
    · simp [mergeFields, getF, hk, ih]

theorem getF_appendF : ∀ (a b : JsFields) (k : String),
    getF (appendF a b) k =
      match getF a k with
      | some v => some v
      | none => getF b k := by
  intro a b k
  induction a using fieldsInduction with
  | nil => rfl
  | cons k' v' rest ih =>
    by_cases hk : k' = k
    · subst hk; simp [appendF, getF]
    · simp [appendF, getF, hk, ih]

theorem getF_extraFields : ∀ (os ds : JsFields) (k : String),
    getF (extraFields ds os) k =
      if (getF ds k).isSome then none else getF os k := by
  intro os ds k
  induction os using fieldsInduction with
  | nil => simp [extraFields, getF]
  | cons k' v' rest ih =>
    by_cases hk : k' = k
    · subst hk
      cases hds : (getF ds k').isSome with
      | true => simp [extraFields, hds, ih, getF]
      | false => simp [extraFields, hds, getF]
    · cases hds : (getF ds k').isSome with
      | true => simp [extraFields, hds, ih, getF, hk]
      | false => simp [extraFields, hds, ih, getF, hk]

theorem getPath_mergeVal_untouched :
    ∀ (p : List String) (d o : JsValue), untouched o p = true →
      getPath (mergeVal d o) p = getPath d p := by
  intro p
  induction p with
  | nil => intro d o h; cases o <;> exact absurd h (by simp [untouched])
  | cons k ks ih =>
    intro d o h
    cases o with
    | vStr s => exact absurd h (by simp [untouched])
    | vNum n => exact absurd h (by simp [untouched])
    | vBool b => exact absurd h (by simp [untouched])
    | vObj os =>
      simp only [untouched] at h
      cases d with
      | vObj ds =>
        have hm : mergeVal (JsValue.vObj ds) (JsValue.vObj os) =
            JsValue.vObj (appendF (mergeFields ds os) (extraFields ds os)) := rfl
        rw [hm]
        simp only [getPath_vObj_cons, getF_appendF, getF_mergeFields, getF_extraFields]
        cases hds : getF ds k with
        | none =>
          cases hos : getF os k with
          | none => simp
          | some v =>
            rw [hos] at h
            simpa using getPath_none_of_untouched ks v h
        | some dv =>
          cases hos : getF os k with
          | none => simp
          | some v =>
            rw [hos] at h
            simpa using ih dv v h
      | vStr s =>
        have hmerge : mergeVal (JsValue.vStr s) (JsValue.vObj os) = JsValue.vObj os := rfl
        have hnone : getPath (JsValue.vObj os) (k :: ks) = none :=
          getPath_none_of_untouched (k :: ks) (JsValue.vObj os) h
        have hd : getPath (JsValue.vStr s) (k :: ks) = none := rfl
        rw [hmerge, hnone, hd]
      | vNum n =>
        have hmerge : mergeVal (JsValue.vNum n) (JsValue.vObj os) = JsValue.vObj os := rfl
        have hnone : getPath (JsValue.vObj os) (k :: ks) = none :=
          getPath_none_of_untouched (k :: ks) (JsValue.vObj os) h
        have hd : getPath (JsValue.vNum n) (k :: ks) = none := rfl
        rw [hmerge, hnone, hd]
      | vBool b =>
        have hmerge : mergeVal (JsValue.vBool b) (JsValue.vObj os) = JsValue.vObj os := rfl
        have hnone : getPath (JsValue.vObj os) (k :: ks) = none :=
          getPath_none_of_untouched (k :: ks) (JsValue.vObj os) h
        have hd : getPath (JsValue.vBool b) (k :: ks) = none := rfl
        rw [hmerge, hnone, hd]

/-! ## Heap lemmas -/

theorem nth_append_self : ∀ (l : List HObj) (o : HObj), nth (l ++ [o]) l.length = some o := by
  intro l o
  induction l with
  | nil => rfl
  | cons x rest ih => simpa [nth] using ih

theorem nth_append_of_lt : ∀ (l l2 : List HObj) (n : Nat), n < l.length →
    nth (l ++ l2) n = nth l n := by
  intro l
  induction l with
  | nil => intro l2 n hn; cases hn
  | cons x rest ih =>
    intro l2 n hn
    cases n with
    | zero => rfl
    | succ m => exact ih l2 m (Nat.lt_of_succ_lt_succ hn)

theorem lt_length_of_nth_some : ∀ (l : List HObj) (n : Nat) (o : HObj),
    nth l n = some o → n < l.length := by
  intro l
  induction l with
  | nil => intro n o hn; cases hn
  | cons x rest ih =>
    intro n o hn
    cases n with
    | zero => exact Nat.succ_pos _
    | succ m => exact Nat.succ_lt_succ (ih m o hn)

theorem nth_setNth_ne : ∀ (l : List HObj) (i j : Nat) (o : HObj), i ≠ j →
    nth (setNth l i o) j = nth l j := by
  intro l
  induction l with
  | nil => intro i j o _; cases i <;> rfl
  | cons x rest ih =>
    intro i j o hij
    cases i with
    | zero =>
      cases j with
      | zero => exact absurd rfl hij
      | succ m => rfl
    | succ i' =>
      cases j with
      | zero => rfl
      | succ m => exact ih i' m o (fun he => hij (congrArg Nat.succ he))

theorem nth_setNth_self : ∀ (l : List HObj) (i : Nat) (o : HObj), i < l.length →
    nth (setNth l i o) i = some o := by
  intro l
  induction l with
  | nil => intro i o hi; cases hi
  | cons x rest ih =>
    intro i o hi
    cases i with
    | zero => rfl
    | succ m => exact ih m o (Nat.lt_of_succ_lt_succ hi)

theorem getHField_setHField_self : ∀ (o : HObj) (k : String) (v : HVal),
    getHField (setHField o k v) k = some v := by
  intro o k v
  induction o with
  | nil => simp [setHField, getHField]
  | cons kv rest ih =>
    obtain ⟨k', v'⟩ := kv
    by_cases hk : k' = k
    · simp [setHField, getHField, hk]
    · simp [setHField, getHField, hk, ih]

/-- Mutating one field of the heap object at `a` leaves every other
address unchanged. -/
theorem lookupObj_setField_ne (h : Heap) (a b : Nat) (k : String) (v : HVal)
    (hab : a ≠ b) : lookupObj (setField h a k v) b = lookupObj h b := by
  unfold setField
  cases hl : lookupObj h a with
  | none => rfl
  | some o => simpa [lookupObj] using nth_setNth_ne h.objs a b (setHField o k v) hab

/-- Mutating a field of the heap object at `a` stores the updated object
at `a`. -/
theorem lookupObj_setField_self (h : Heap) (a : Nat) (m : HObj) (k : String) (v : HVal)
    (hm : lookupObj h a = some m) :
    lookupObj (setField h a k v) a = some (setHField m k v) := by
  unfold setField
  rw [hm]
  simpa [lookupObj] using
    nth_setNth_self h.objs a (setHField m k v) (lt_length_of_nth_some h.objs a m hm)

/-! ## Concrete configuration stores used in the claims -/

/-- A store with all three alias roots present, where only the deprecated
roots enable the web API. -/
def allAliasesStore : JsValue :=
  obj [("mfuses", obj [("enableWebApi", JsValue.vBool false),
                       ("config", obj [("namespace", JsValue.vStr "chosen-ns")])]),
       ("usMoleculer", obj [("enableWebApi", JsValue.vBool true),
                            ("webApiSettings", obj [("port", JsValue.vNum 9999)])]),
       ("mol-service", obj [("config", obj [("namespace", JsValue.vStr "old-ns")])])]

/-- A store whose only root is `mfuses`, with the web API enabled under
it. -/
def mfusesWebStore : JsValue :=
  obj [("mfuses", obj [("enableWebApi", JsValue.vBool true),
                       ("webApiSettings", obj [("port", JsValue.vNum 9000)])])]

/-- A store with no alias root at all. -/
def emptyStore : JsValue := JsValue.vObj JsFields.nil

/-- The store of the scenario overriding only `mfuses.config.namespace`. -/
def ordersStore : JsValue :=
  obj [("mfuses", obj [("config", obj [("namespace", JsValue.vStr "orders")])])]

/-! ## Claims -/

/-- C1: the claim says that with all three alias roots present, resolution
picks `mfuses` and no merged setting — including gateway enablement and
gateway settings — is read from `usMoleculer` or `mol-service`.  The code
violates this: the web-API block tests only `usMoleculer.enableWebApi` /
`mol-service.enableWebApi` and merges their `webApiSettings`, regardless
of the chosen root.  At `allAliasesStore` (all three roots present,
`mfuses.enableWebApi = false`, `usMoleculer.enableWebApi = true`) the
alias chain does choose `mfuses` (no warning, namespace from `mfuses`),
yet the web API ends up enabled with the `usMoleculer` port — both read
from a root the claim says is ignored. -/
theorem c1_gateway_read_from_deprecated_roots :
    hasPath allAliasesStore ["mfuses"] = true ∧
    hasPath allAliasesStore ["usMoleculer"] = true ∧
    hasPath allAliasesStore ["mol-service"] = true ∧
    (resolveConfig allAliasesStore).warnings = [] ∧
    getPath (resolveConfig allAliasesStore).serviceConfig ["namespace"]
      = some (JsValue.vStr "chosen-ns") ∧
    getPath allAliasesStore ["mfuses", "enableWebApi"] = some (JsValue.vBool false) ∧
    webApiEnabled allAliasesStore = true ∧
    getPath (resolvedWebApiSettings allAliasesStore) ["port"] = some (JsValue.vNum 9999) ∧
    (startup allAliasesStore (Except.ok ())).gatewayAttached = true := by
  refine ⟨rfl, rfl, rfl, rfl, rfl, rfl, rfl, rfl, rfl⟩

/-- C2: the claim says that when `mfuses` is the chosen root,
`mfuses.enableWebApi` controls gateway attachment with
`mfuses.webApiSettings` merged over the defaults.  The code never reads
either key: at `mfusesWebStore` (only root `mfuses`, with
`enableWebApi = true` and a port override under it) the web API stays
disabled and no gateway is attached. -/
theorem c2_mfuses_enableWebApi_ignored :
    hasPath mfusesWebStore ["mfuses"] = true ∧
    (resolveConfig mfusesWebStore).warnings = [] ∧
    getPath mfusesWebStore ["mfuses", "enableWebApi"] = some (JsValue.vBool true) ∧
    webApiEnabled mfusesWebStore = false ∧
    (startup mfusesWebStore (Except.ok ())).gatewayAttached = false ∧
    (startup mfusesWebStore (Except.ok ())).gatewaySettings = none := by
  refine ⟨rfl, rfl, rfl, rfl, rfl, rfl⟩

/-- C3 (counterexample): the claim says that when no alias root is present
resolution is silent.  On the empty store no alias root is present, yet
the final `else` branch logs the `mol-service` deprecation warning. -/
theorem c3_counterexample_warning_without_alias :
    hasPath emptyStore ["mfuses"] = false ∧
    hasPath emptyStore ["usMoleculer"] = false ∧
    hasPath emptyStore ["mol-service"] = false ∧
    (resolveConfig emptyStore).warnings = [molServiceWarning] ∧
    (resolveConfig emptyStore).warnings ≠ [] := by
  refine ⟨rfl, rfl, rfl, rfl, ?_⟩
  intro hcontra
  simp [resolveConfig, emptyStore, hasPath, getPath, getF] at hcontra

/-- C3 (amended): the `usMoleculer` warning is logged iff `mfuses` is
absent and `usMoleculer` present; otherwise, whenever `mfuses` and
`usMoleculer` are both absent, the `mol-service` warning is logged — even
when no alias root is present at all.  Resolution still falls back to the
defaults without error on an empty store. -/
theorem c3_warning_characterization (store : JsValue) :
    (resolveConfig store).warnings =
      (if hasPath store ["mfuses"] then []
       else if hasPath store ["usMoleculer"] then [usMoleculerWarning]
       else [molServiceWarning]) ∧
    (resolveConfig emptyStore).serviceConfig = defaultServiceConfig ∧
    (resolveConfig emptyStore).loggerSettings = defaultLoggerSettings := by
  refine ⟨?_, rfl, rfl⟩
  unfold resolveConfig
  by_cases h1 : hasPath store ["mfuses"]
  · simp [h1]
  · by_cases h2 : hasPath store ["usMoleculer"]
    · simp [h1, h2]
    · simp [h1, h2]

/-- C4: `call` forwards a stream-typed `callParams` as the identical
reference (heap unchanged, no clone); a non-stream object is copied into a
fresh address with the same top-level fields, so mutating the
broker-visible copy leaves the caller's object unchanged; `callOptions`
is likewise shallow-copied, and an empty options object is allocated when
`callOptions` is absent. -/
theorem c4_call_param_copying
    (h : Heap) (sid a : Nat) (m : HObj) (oa : Nat) (om : HObj)
    (k1 : String) (v1 : HVal) (k2 : String) (v2 : HVal)
    (hm : lookupObj h a = some m)
    (hom : lookupObj h oa = some om) :
    normalizeCallParams h (CallParams.stream sid) = (h, CallParams.stream sid) ∧
    (normalizeCallParams h (CallParams.objRef a)).2 = CallParams.objRef h.objs.length ∧
    h.objs.length ≠ a ∧
    lookupObj (normalizeCallParams h (CallParams.objRef a)).1 h.objs.length = some m ∧
    lookupObj (setField (normalizeCallParams h (CallParams.objRef a)).1
        h.objs.length k1 v1) a = some m ∧
    (normalizeCallOptions h (some oa)).2 ≠ oa ∧
    lookupObj (normalizeCallOptions h (some oa)).1 (normalizeCallOptions h (some oa)).2
      = some om ∧
    lookupObj (setField (normalizeCallOptions h (some oa)).1
        (normalizeCallOptions h (some oa)).2 k2 v2) oa = some om ∧
    lookupObj (normalizeCallOptions h none).1 (normalizeCallOptions h none).2 = some [] := by
  have ha : a < h.objs.length := lt_length_of_nth_some h.objs a m hm
  have hoa : oa < h.objs.length := lt_length_of_nth_some h.objs oa om hom
  have hne : h.objs.length ≠ a := (Nat.ne_of_lt ha).symm
  have hone : h.objs.length ≠ oa := (Nat.ne_of_lt hoa).symm
  have hstep : normalizeCallParams h (CallParams.objRef a)
      = (Heap.mk (h.objs ++ [m]), CallParams.objRef h.objs.length) := by
    simp [normalizeCallParams, alloc, hm]
  have hostep : normalizeCallOptions h (some oa)
      = (Heap.mk (h.objs ++ [om]), h.objs.length) := by
    simp [normalizeCallOptions, alloc, hom]
  refine ⟨rfl, ?_, hne, ?_, ?_, ?_, ?_, ?_, ?_⟩
  · rw [hstep]
  · rw [hstep]
    exact nth_append_self h.objs m
  · rw [hstep]
    rw [lookupObj_setField_ne (Heap.mk (h.objs ++ [m])) h.objs.length a k1 v1 hne]
    show nth (h.objs ++ [m]) a = some m
    rw [nth_append_of_lt h.objs [m] a ha]
    exact hm
  · rw [hostep]
    exact hone.symm ∘ Eq.symm
  · rw [hostep]
    exact nth_append_self h.objs om
  · rw [hostep]
    rw [lookupObj_setField_ne (Heap.mk (h.objs ++ [om])) h.objs.length oa k2 v2 hone]
    show nth (h.objs ++ [om]) oa = some om
    rw [nth_append_of_lt h.objs [om] oa hoa]
    exact hom
  · show nth (h.objs ++ [[]]) h.objs.length = some []
    exact nth_append_self h.objs []

/-- Heap used by the C4 witness: two allocated objects. -/
def c4Heap : Heap := Heap.mk [[("x", HVal.hNum 1)], [("y", HVal.hNum 2)]]

/-- Witness for C4 at a concrete heap. -/
theorem c4_call_param_copying_witness :
    lookupObj c4Heap 0 = some [("x", HVal.hNum 1)] ∧
    lookupObj c4Heap 1 = some [("y", HVal.hNum 2)] ∧
    (normalizeCallParams c4Heap (CallParams.stream 5) = (c4Heap, CallParams.stream 5) ∧
     (normalizeCallParams c4Heap (CallParams.objRef 0)).2
       = CallParams.objRef c4Heap.objs.length ∧
     c4Heap.objs.length ≠ 0 ∧
     lookupObj (normalizeCallParams c4Heap (CallParams.objRef 0)).1 c4Heap.objs.length
       = some [("x", HVal.hNum 1)] ∧
     lookupObj (setField (normalizeCallParams c4Heap (CallParams.objRef 0)).1
         c4Heap.objs.length "k" (HVal.hNum 3)) 0 = some [("x", HVal.hNum 1)] ∧
     (normalizeCallOptions c4Heap (some 1)).2 ≠ 1 ∧
     lookupObj (normalizeCallOptions c4Heap (some 1)).1
         (normalizeCallOptions c4Heap (some 1)).2 = some [("y", HVal.hNum 2)] ∧
     lookupObj (setField (normalizeCallOptions c4Heap (some 1)).1
         (normalizeCallOptions c4Heap (some 1)).2 "q" (HVal.hNum 4)) 1
       = some [("y", HVal.hNum 2)] ∧
     lookupObj (normalizeCallOptions c4Heap none).1 (normalizeCallOptions c4Heap none).2
       = some []) :=
  ⟨rfl, rfl,
   c4_call_param_copying c4Heap 5 0 [("x", HVal.hNum 1)] 1 [("y", HVal.hNum 2)]
     "k" (HVal.hNum 3) "q" (HVal.hNum 4) rfl rfl⟩

/-- C5: when the broker call fails, the facade records an error log entry
tagged with the action name and returns the original (still rejected)
broker promise — the failure is not swallowed. -/
theorem c5_call_failure_logged_and_rejected (actionName e : String) :
    callFacade actionName (Except.error e) =
      (Except.error e,
       [LogEntry.trace "call" actionName,
        LogEntry.error e ("Error calling " ++ actionName)]) := rfl

/-- C6: if loading the gateway module fails, the failure is caught and
logged with the install guidance, the broker remains started with its
resolved configuration intact, and `call`/`emit`/`broadcast` still
delegate to the broker as usual. -/
theorem c6_gateway_load_failure_nonfatal (store : JsValue) (e : String)
    (en : String) (p : JsValue) (g : List String) (r : Except String Unit)
    (act : String) (cr : Except String JsValue) :
    (startup store (Except.error e)).started = true ∧
    (startup store (Except.error e)).gatewayAttached = false ∧
    (startup store (Except.error e)).errorLogs =
      (if webApiEnabled store then [(e, gatewayGuidance)] else []) ∧
    (startup store (Except.error e)).resolved = resolveConfig store ∧
    (callFacade act cr).1 = cr ∧
    (emitFacade en p g r).1 = r ∧
    (broadcastFacade en p g r).1 = r := by
  refine ⟨?_, ?_, ?_, ?_, rfl, rfl, rfl⟩ <;>
    · unfold startup
      cases hw : webApiEnabled store <;> simp [hw]

/-- C7: deep-merging any override over the default service configuration
preserves every default path the override does not specify (`untouched`),
and the scenario overriding only `mfuses.config.namespace` with "orders"
resolves to namespace "orders", transporter "TCP", and registry strategy
"Random". -/
theorem c7_merge_preserves_unspecified_defaults (o : JsValue) (p : List String)
    (hp : untouched o p = true) :
    getPath (mergeVal defaultServiceConfig o) p = getPath defaultServiceConfig p ∧
    getPath (resolveConfig ordersStore).serviceConfig ["namespace"]
      = some (JsValue.vStr "orders") ∧
    getPath (resolveConfig ordersStore).serviceConfig ["transporter"]
      = some (JsValue.vStr "TCP") ∧
    getPath (resolveConfig ordersStore).serviceConfig ["registry", "strategy"]
      = some (JsValue.vStr "Random") :=
  ⟨getPath_mergeVal_untouched p defaultServiceConfig o hp, rfl, rfl, rfl⟩

/-- Witness for C7: the override setting only `namespace` does not touch
the `registry.strategy` path, which the merge hence preserves. -/
theorem c7_merge_preserves_unspecified_defaults_witness :
    untouched (obj [("namespace", JsValue.vStr "orders")]) ["registry", "strategy"] = true ∧
    (getPath (mergeVal defaultServiceConfig (obj [("namespace", JsValue.vStr "orders")]))
        ["registry", "strategy"]
      = getPath defaultServiceConfig ["registry", "strategy"] ∧
     getPath (resolveConfig ordersStore).serviceConfig ["namespace"]
       = some (JsValue.vStr "orders") ∧
     getPath (resolveConfig ordersStore).serviceConfig ["transporter"]
       = some (JsValue.vStr "TCP") ∧
     getPath (resolveConfig ordersStore).serviceConfig ["registry", "strategy"]
       = some (JsValue.vStr "Random")) :=
  ⟨rfl, c7_merge_preserves_unspecified_defaults
          (obj [("namespace", JsValue.vStr "orders")]) ["registry", "strategy"] rfl⟩

/-- C8: the deep merge is idempotent on well-formed records (objects never
bind a key twice, as is the case for every record a JavaScript
configuration store can produce). -/
theorem c8_merge_idempotent (r : JsValue) (h : wfV r = true) : mergeVal r r = r :=
  mergeVal_self r h

/-- Witness for C8 at the default service configuration. -/
theorem c8_merge_idempotent_witness :
    wfV defaultServiceConfig = true ∧
    mergeVal defaultServiceConfig defaultServiceConfig = defaultServiceConfig :=
  ⟨rfl, c8_merge_idempotent defaultServiceConfig rfl⟩

/-- C9: `emit` and `broadcast` add only a trace log and pass the broker
outcome through unchanged (no handler of their own), `call` returns the
broker outcome unchanged, and only the gateway-attachment failure is
contained (the broker still starts). -/
theorem c9_emit_broadcast_passthrough (en : String) (p : JsValue) (g : List String)
    (r : Except String Unit) (act : String) (cr : Except String JsValue)
    (store : JsValue) (e : String) :
    emitFacade en p g r = (r, [LogEntry.trace "emit" en]) ∧
    broadcastFacade en p g r = (r, [LogEntry.trace "broadcast" en]) ∧
    (callFacade act cr).1 = cr ∧
    (startup store (Except.error e)).started = true := by
  refine ⟨rfl, rfl, rfl, ?_⟩
  unfold startup
  cases hw : webApiEnabled store <;> simp [hw]

/-- C10: the copy `call` passes to the broker is shallow: it holds the
same top-level fields, so a nested object value is the same reference in
both; mutating that nested object through the copy is visible when
reading through the caller's original object. -/
theorem c10_shallow_copy_shares_nested
    (h : Heap) (a b : Nat) (m mb : HObj) (k k2 : String) (v : HVal)
    (hm : lookupObj h a = some m)
    (hk : getHField m k = some (HVal.hRef b))
    (hb : lookupObj h b = some mb)
    (hab : b ≠ a) :
    (normalizeCallParams h (CallParams.objRef a)).2 = CallParams.objRef h.objs.length ∧
    lookupObj (normalizeCallParams h (CallParams.objRef a)).1 h.objs.length = some m ∧
    readPath (setField (normalizeCallParams h (CallParams.objRef a)).1 b k2 v)
      (HVal.hRef a) [k, k2] = some v ∧
    readPath (setField (normalizeCallParams h (CallParams.objRef a)).1 b k2 v)
      (HVal.hRef h.objs.length) [k, k2] = some v := by
  have ha : a < h.objs.length := lt_length_of_nth_some h.objs a m hm
  have hbl : b < h.objs.length := lt_length_of_nth_some h.objs b mb hb
  have hstep : normalizeCallParams h (CallParams.objRef a)
      = (Heap.mk (h.objs ++ [m]), CallParams.objRef h.objs.length) := by
    simp [normalizeCallParams, alloc, hm]
  have h2a : lookupObj (Heap.mk (h.objs ++ [m])) a = some m := by
    show nth (h.objs ++ [m]) a = some m
    rw [nth_append_of_lt h.objs [m] a ha]
    exact hm
  have h2b : lookupObj (Heap.mk (h.objs ++ [m])) b = some mb := by
    show nth (h.objs ++ [m]) b = some mb
    rw [nth_append_of_lt h.objs [m] b hbl]
    exact hb
  have h2len : lookupObj (Heap.mk (h.objs ++ [m])) h.objs.length = some m :=
    nth_append_self h.objs m
  have hblen : b ≠ h.objs.length := Nat.ne_of_lt hbl
  have h3b : lookupObj (setField (Heap.mk (h.objs ++ [m])) b k2 v) b
      = some (setHField mb k2 v) :=
    lookupObj_setField_self (Heap.mk (h.objs ++ [m])) b mb k2 v h2b
  have h3a : lookupObj (setField (Heap.mk (h.objs ++ [m])) b k2 v) a = some m := by
    rw [lookupObj_setField_ne (Heap.mk (h.objs ++ [m])) b a k2 v hab]
    exact h2a
  have h3len : lookupObj (setField (Heap.mk (h.objs ++ [m])) b k2 v) h.objs.length
      = some m := by
    rw [lookupObj_setField_ne (Heap.mk (h.objs ++ [m])) b h.objs.length k2 v hblen]
    exact h2len
  refine ⟨by rw [hstep], by rw [hstep]; exact h2len, ?_, ?_⟩
  · rw [hstep]
    simp [readPath, h3a, hk, h3b, getHField_setHField_self]
  · rw [hstep]
    simp [readPath, h3len, hk, h3b, getHField_setHField_self]

/-- Heap used by the C10 witness: object 0 holds a reference to object 1. -/
def c10Heap : Heap := Heap.mk [[("nested", HVal.hRef 1)], [("z", HVal.hNum 0)]]

/-- Witness for C10 at a concrete heap. -/
theorem c10_shallow_copy_shares_nested_witness :
    lookupObj c10Heap 0 = some [("nested", HVal.hRef 1)] ∧
    getHField [("nested", HVal.hRef 1)] "nested" = some (HVal.hRef 1) ∧
    lookupObj c10Heap 1 = some [("z", HVal.hNum 0)] ∧
    (1 : Nat) ≠ 0 ∧
    ((normalizeCallParams c10Heap (CallParams.objRef 0)).2
       = CallParams.objRef c10Heap.objs.length ∧
     lookupObj (normalizeCallParams c10Heap (CallParams.objRef 0)).1 c10Heap.objs.length
       = some [("nested", HVal.hRef 1)] ∧
     readPath (setField (normalizeCallParams c10Heap (CallParams.objRef 0)).1
         1 "w" (HVal.hNum 7)) (HVal.hRef 0) ["nested", "w"] = some (HVal.hNum 7) ∧
     readPath (setField (normalizeCallParams c10Heap (CallParams.objRef 0)).1
         1 "w" (HVal.hNum 7)) (HVal.hRef c10Heap.objs.length) ["nested", "w"]
       = some (HVal.hNum 7)) :=
  ⟨rfl, rfl, rfl, by decide,
   c10_shallow_copy_shares_nested c10Heap 0 1 [("nested", HVal.hRef 1)]
     [("z", HVal.hNum 0)] "nested" "w" (HVal.hNum 7) rfl rfl rfl (by decide)⟩

end MFuses
